import Mathlib

/-!
Shallow embedding of the NHANES incremental merge scripts
(`merge_nhanes_files.py` and `merge_nhanes_any_batched.py`).

A table cell is either missing (pandas NaN), a number, or a string.
A loaded component table (`DF`) keeps the subject key (the `SEQN` cell)
separated from the remaining attribute cells of each row; `header` lists
the names of the non-key columns, in order.
-/

inductive Cell where
  | null
  | num (n : Int)
  | str (s : String)
deriving DecidableEq, Repr

/-- Parsed raw table as delivered by the CSV/Excel reader: a column-name
list and a list of rows (lists of cells). -/
structure Raw where
  header : List String
  rows : List (List Cell)
deriving DecidableEq, Repr

/-- A component table after loading: non-key column names plus rows of
(SEQN key cell, attribute cells). -/
structure DF where
  header : List String
  rows : List (Cell × List Cell)
deriving DecidableEq, Repr

/-- Well-formedness: every row has exactly one cell per non-key column. -/
def WF (df : DF) : Prop := ∀ r ∈ df.rows, r.2.length = df.header.length

instance (df : DF) : Decidable (WF df) := List.decidableBAll _ df.rows

/-- The key column of a table, in row order. -/
def keysOf (df : DF) : List Cell := df.rows.map Prod.fst

/-! ## Generic list machinery (insertion sort, first-occurrence dedup) -/

def insLe (le : α → α → Bool) (a : α) : List α → List α
  | [] => [a]
  | b :: t => if le a b then a :: b :: t else b :: insLe le a t

/-- Deterministic (stable) sort by a boolean comparison; models
`DataFrame.sort_values` / the sorted key order of `groupby`. -/
def sortLe (le : α → α → Bool) : List α → List α
  | [] => []
  | a :: t => insLe le a (sortLe le t)

/-- First-occurrence deduplication with an explicit `seen` accumulator. -/
def dedupFirstAux [DecidableEq α] (seen : List α) : List α → List α
  | [] => []
  | a :: t => if a ∈ seen then dedupFirstAux seen t
              else a :: dedupFirstAux (a :: seen) t

def dedupFirst [DecidableEq α] (l : List α) : List α := dedupFirstAux [] l

/-- Does the pattern occur at the head of the list? -/
def startsSeq [DecidableEq α] : List α → List α → Bool
  | [], _ => true
  | _ :: _, [] => false
  | a :: ps, b :: ls => a = b && startsSeq ps ls

/-- Does the pattern occur contiguously anywhere in the list?  Models
Python's `in` test on strings. -/
def hasSeq [DecidableEq α] (pat : List α) : List α → Bool
  | [] => pat.isEmpty
  | a :: t => startsSeq pat (a :: t) || hasSeq pat t

/-! ## Ordering on cells

`sort_values("SEQN")` sorts the key column.  NHANES keys are numeric; the
model totalizes the order with numbers before strings and missing values
last (pandas puts NaN last). -/

def charListLe : List Char → List Char → Bool
  | [], _ => true
  | _ :: _, [] => false
  | a :: as, b :: bs => if a = b then charListLe as bs else decide (a < b)

def cellLe : Cell → Cell → Bool
  | .null, .null => true
  | .null, _ => false
  | _, .null => true
  | .num a, .num b => decide (a ≤ b)
  | .num _, .str _ => true
  | .str _, .num _ => false
  | .str a, .str b => charListLe a.toList b.toList

/-- `str(x)` applied to a cell (used by the medication path after
`dropna`, so the `null` case is never reached on that path). -/
def cellToStr : Cell → String
  | .null => "nan"
  | .num n => toString n
  | .str s => s

/-! ## The loader (`read_any`) -/

/-- Strip leading and trailing whitespace (Python `str.strip()`). -/
def trimChars (l : List Char) : List Char :=
  ((l.dropWhile Char.isWhitespace).reverse.dropWhile Char.isWhitespace).reverse

/-- Column-name normalisation: `str(c).strip().upper()`. -/
def normName (c : String) : String := ⟨(trimChars c.data).map Char.toUpper⟩

/-- `"medication" in fname or "rxq" in fname or "rx_" in fname` on the
lower-cased file name (lines 57-58 of `merge_nhanes_files.py`). -/
def medsName (fname : String) : Bool :=
  let l := fname.data.map Char.toLower
  hasSeq "medication".data l || hasSeq "rxq".data l || hasSeq "rx_".data l

/-- Rows keyed by the `SEQN` cell, as used by the dedup step. -/
abbrev KRow := Cell × List Cell

/-- `df.duplicated(subset=["SEQN"]).any()`. -/
def hasDupKeys : List KRow → Bool
  | [] => false
  | r :: t => t.any (fun s => s.1 == r.1) || hasDupKeys t

/-- Stable sort of the rows by the key cell (`df.sort_values("SEQN")`). -/
def sortByKey (rows : List KRow) : List KRow :=
  sortLe (fun r s => cellLe r.1 s.1) rows

/-- `drop_duplicates(subset=["SEQN"], keep="first")`. -/
def dropDupAux (seen : List Cell) : List KRow → List KRow
  | [] => []
  | r :: t => if r.1 ∈ seen then dropDupAux seen t
              else r :: dropDupAux (r.1 :: seen) t

def dropDupFirst (rows : List KRow) : List KRow := dropDupAux [] rows

/-- The standard dedup step of the loader (lines 80-82 of
`merge_nhanes_files.py`, lines 53-55 of `merge_nhanes_any_batched.py`):
sort by key and keep the first row per key, but only when duplicate keys
are present. -/
def dedupBySeqn (rows : List KRow) : List KRow :=
  if hasDupKeys rows then dropDupFirst (sortByKey rows) else rows

/-- The medication aggregation path (lines 60-77 of
`merge_nhanes_files.py`) applied to the extracted (SEQN, RXDDRUG) pairs:
drop rows with a missing drug name, convert to string, group by key
(pandas sorts group keys and drops missing keys) and join each group's
values with `", "`. -/
def medsPath (pairs : List (Cell × Cell)) : List (Cell × Cell) :=
  let cleaned := (pairs.filter (fun p => !(p.2 == Cell.null))).map
    (fun p => (p.1, cellToStr p.2))
  let keys := sortLe cellLe (dedupFirst
    ((cleaned.map Prod.fst).filter (fun k => !(k == Cell.null))))
  keys.map (fun k =>
    (k, Cell.str (String.intercalate ", "
      ((cleaned.filter (fun q => q.1 == k)).map Prod.snd))))

/-- One input file for the merge loop: the file name, its stem and
(lower-cased) extension, and the outcome of the format reader. -/
structure FileIn where
  name : String
  stem : String
  ext : String
  parsed : Except String Raw
deriving Repr

/-- Normalised header of a raw table. -/
def normHeader (raw : Raw) : List String := raw.header.map normName

/-- Index of the `SEQN` column in the normalised header. -/
def seqnIdx (raw : Raw) : Nat := (normHeader raw).indexOf "SEQN"

/-- Indices of the retained non-key columns: every column other than the
key that is not 100% missing is kept (`drop_cols` of `read_any`); extra
columns literally named `SEQN` are never dropped by that test. -/
def keptIdx (raw : Raw) : List Nat :=
  (List.range (normHeader raw).length).filter (fun j =>
    j ≠ seqnIdx raw &&
      ((normHeader raw).getD j "" == "SEQN" ||
        !(raw.rows.all (fun r => r.getD j Cell.null == Cell.null))))

/-- Names of the retained non-key columns. -/
def keptHeader (raw : Raw) : List String :=
  (keptIdx raw).map (fun j => (normHeader raw).getD j "")

/-- The extracted rows of the standard path: key cell plus the retained
attribute cells. -/
def extractedRows (raw : Raw) : List KRow :=
  raw.rows.map (fun r =>
    (r.getD (seqnIdx raw) Cell.null,
     (keptIdx raw).map (fun j => r.getD j Cell.null)))

/-- Index (in the raw row) of the `RXDDRUG` column, looked up among the
retained columns as the code does after dropping empty columns. -/
def rxIdx (raw : Raw) : Nat :=
  (keptIdx raw).getD ((keptHeader raw).indexOf "RXDDRUG") 0

/-- The (SEQN, RXDDRUG) pairs selected by the medication path. -/
def medsPairs (raw : Raw) : List (Cell × Cell) :=
  raw.rows.map (fun r =>
    (r.getD (seqnIdx raw) Cell.null, r.getD (rxIdx raw) Cell.null))

/-- `read_any` (lines 34-84 of `merge_nhanes_files.py`): check the file
extension, propagate reader failures, normalise column names, require a
`SEQN` column, drop all-missing columns, then either aggregate the
medication attribute or deduplicate by key. -/
def read_any (f : FileIn) : Except String DF :=
  if ¬ (f.ext = ".csv" ∨ f.ext = ".xlsx" ∨ f.ext = ".xls") then
    .error ("Unsupported file type: " ++ f.ext)
  else
    match f.parsed with
    | .error e => .error e
    | .ok raw =>
      if "SEQN" ∈ normHeader raw then
        if medsName f.name && "RXDDRUG" ∈ keptHeader raw then
          .ok ⟨["RXDDRUG"], (medsPath (medsPairs raw)).map (fun p => (p.1, [p.2]))⟩
        else
          .ok ⟨keptHeader raw, dedupBySeqn (extractedRows raw)⟩
      else .error (f.name ++ ": No SEQN column found.")

/-! ## Column namespacer, component naming, and the abstract optimizer -/

/-- Rename of one column by `suffix_non_key`: every non-key column
becomes `<original>__<component>`; `SEQN` is left unchanged. -/
def renameCol (component c : String) : String :=
  if c == "SEQN" then c else c ++ "__" ++ component

/-- `suffix_non_key` (lines 101-103 of `merge_nhanes_files.py`). -/
def suffix_non_key (df : DF) (component : String) : DF :=
  ⟨df.header.map (renameCol component), df.rows⟩

def stripSuffixStr (suf s : String) : String :=
  if startsSeq suf.data.reverse s.data.reverse then
    ⟨s.data.take (s.data.length - suf.data.length)⟩
  else s

/-- Collapse every maximal whitespace run to a single `'_'`
(`re.sub(r"\s+", "_", ...)`); the flag records whether the previous
character was whitespace. -/
def squashWSAux : Bool → List Char → List Char
  | _, [] => []
  | prev, a :: t =>
    if a.isWhitespace then
      if prev then squashWSAux true t else '_' :: squashWSAux true t
    else a :: squashWSAux false t

/-- `component_from_filename` (lines 27-32 of `merge_nhanes_files.py`). -/
def component_from_filename (stem : String) : String :=
  let low : String := ⟨stem.data.map Char.toLower⟩
  let s := stripSuffixStr "_unclean" (stripSuffixStr "_clean" low)
  ⟨squashWSAux false (trimChars s.data)⟩

/-- Columns of a table, in header order (each column read off the rows,
missing cells padded with `null`; on well-formed tables no padding ever
happens). -/
def colsOf (df : DF) : List (List Cell) :=
  (List.range df.header.length).map (fun j => df.rows.map (fun r => r.2.getD j Cell.null))

/-- Rebuild rows from a key column and a list of attribute columns. -/
def rebuildRows (keys : List Cell) (cols : List (List Cell)) : List KRow :=
  (List.range keys.length).map (fun i =>
    (keys.getD i Cell.null, cols.map (fun col => col.getD i Cell.null)))

/-- `optimize_dtypes` as seen by the merge loop: a column-wise transform
of the non-key columns that never touches the key.  The per-column value
transform `opt` is a parameter because its float behaviour lives in
library floating-point code; the loop-level theorems hold for every
`opt`.  The dtype-level embedding of `optimize_dtypes` is given
separately below. -/
def applyOpt (opt : String → List Cell → List Cell) (df : DF) : DF :=
  ⟨df.header,
   rebuildRows (keysOf df) ((df.header.zip (colsOf df)).map (fun p => opt p.1 p.2))⟩

/-! ## The accumulator engine -/

/-- Pandas left merge on the key (`accumulator.merge(df, on="SEQN",
how="left")`): every accumulator row is paired with every matching row of
the incoming table (in its order), or padded with missing values when no
row matches; keys only in the incoming table are dropped.  This models
the regime in which no non-key column name occurs on both sides and the
key columns have compatible dtypes; `leftMergeX` further below adds the
two library behaviours outside that regime (the `_x`/`_y` suffix renaming
of overlapping names and the merge errors). -/
def leftMerge (a b : DF) : DF :=
  ⟨a.header ++ b.header,
   a.rows.flatMap (fun r =>
     let ms := b.rows.filter (fun s => s.1 == r.1)
     if ms.isEmpty then [(r.1, r.2 ++ List.replicate b.header.length Cell.null)]
     else ms.map (fun s => (r.1, r.2 ++ s.2)))⟩

/-- Modelled from the spec: the durable columnar checkpoint file written
by `accumulator.to_parquet(tmp_parquet, index=False)`.  The parquet
reader/writer itself is a library capability the spec treats as external;
a parquet file stores the table column by column. -/
structure Checkpoint where
  header : List String
  keys : List Cell
  cols : List (List Cell)
deriving DecidableEq, Repr

/-- Modelled from the spec: serialize the accumulator to the columnar
checkpoint (`to_parquet`). -/
def writeParquet (df : DF) : Checkpoint := ⟨df.header, keysOf df, colsOf df⟩

/-- Modelled from the spec: reconstruct the accumulator from the
checkpoint (`read_parquet`). -/
def readParquet (cp : Checkpoint) : DF := ⟨cp.header, rebuildRows cp.keys cp.cols⟩

/-- One audit record of the merge report (`report_rows.append(...)`). -/
structure ReportRow where
  component : String
  file : String
  rowCount : Nat
  colCount : Nat
deriving DecidableEq, Repr

/-- The loop state: the optional accumulator and the report rows. -/
structure RunState where
  acc : Option DF
  report : List ReportRow
deriving Repr

/-- The load/optimize/namespace stages applied to one successfully read
component. -/
def processOk (opt : String → List Cell → List Cell) (f : FileIn) (df0 : DF) : DF :=
  suffix_non_key (applyOpt opt df0) (component_from_filename f.stem)

/-- One iteration of the merge loop without the checkpoint round-trip:
skip the file if `read_any` fails, otherwise optimize, namespace, record
the report row, and either seed the accumulator or left-merge into it. -/
def stepNC (opt : String → List Cell → List Cell) (st : RunState) (f : FileIn) : RunState :=
  match read_any f with
  | .error _ => st
  | .ok df0 =>
    let df2 := processOk opt f df0
    let acc' := match st.acc with
      | none => df2
      | some a => leftMerge a df2
    ⟨some acc',
     st.report ++ [⟨component_from_filename f.stem, f.name, df2.rows.length, df2.header.length + 1⟩]⟩

/-- One iteration of the merge loop as the code runs it: the same as
`stepNC` followed by the write-then-read checkpoint round-trip of the
accumulator (lines 159-162 of `merge_nhanes_files.py`). -/
def stepCK (opt : String → List Cell → List Cell) (st : RunState) (f : FileIn) : RunState :=
  match read_any f with
  | .error _ => st
  | .ok df0 =>
    let df2 := processOk opt f df0
    let acc' := match st.acc with
      | none => df2
      | some a => leftMerge a df2
    ⟨some (readParquet (writeParquet acc')),
     st.report ++ [⟨component_from_filename f.stem, f.name, df2.rows.length, df2.header.length + 1⟩]⟩

/-- The merge loop over the (already scanned and sorted) input files. -/
def runLoop (opt : String → List Cell → List Cell) (files : List FileIn) : RunState :=
  files.foldl (stepCK opt) ⟨none, []⟩

/-- The loop with every checkpoint round-trip removed, used to state that
checkpointing preserves the accumulator's logical contents. -/
def runLoopNC (opt : String → List Cell → List Cell) (files : List FileIn) : RunState :=
  files.foldl (stepNC opt) ⟨none, []⟩

/-- Finalization (`main`, lines 165-168 of `merge_nhanes_files.py`): if
no component was merged the run exits with a non-zero status and nothing
is written; otherwise the final table and the report are produced.  (The
batched variant reaches `None.to_parquet` on the same condition, which
also terminates the run with a non-zero status before any output is
written.) -/
def mainRun (opt : String → List Cell → List Cell) (files : List FileIn) :
    Except String (DF × List ReportRow) :=
  let st := runLoop opt files
  match st.acc with
  | none => .error "No data merged. Exiting."
  | some a => .ok (a, st.report)

/-! ## Dtype-level embedding of `optimize_dtypes`

`optimize_dtypes` (lines 86-99 of `merge_nhanes_files.py`) dispatches on
each column's dtype: float columns are downcast to the smallest float
width that survives the cast, integer columns to the smallest integer
width that fits, object columns of small cardinality become categorical,
and anything else (in particular categorical columns) is left alone.
Float payloads are rationals together with two parameters — whether all
values survive the cast to 32 bits and how the cast rounds them — because
those two facts live in numpy's floating-point code. -/

inductive FloatW where
  | f32
  | f64
deriving DecidableEq, Repr

inductive IntW where
  | i8
  | i16
  | i32
  | i64
deriving DecidableEq, Repr

inductive TCol where
  | floatCol (w : FloatW) (vals : List (Option ℚ))
  | intCol (w : IntW) (vals : List Int)
  | objCol (vals : List (Option String))
  | catCol (vals : List (Option String))
deriving DecidableEq, Repr

def intBytes : IntW → Nat
  | .i8 => 1
  | .i16 => 2
  | .i32 => 4
  | .i64 => 8

def floatBytes : FloatW → Nat
  | .f32 => 4
  | .f64 => 8

/-- Storage bytes per value of a column (categorical columns store small
codes; one byte is the floor used here). -/
def colBytes : TCol → Nat
  | .floatCol w _ => floatBytes w
  | .intCol w _ => intBytes w
  | .objCol _ => 8
  | .catCol _ => 1

def intFits (w : IntW) (n : Int) : Bool :=
  match w with
  | .i8 => decide (-128 ≤ n ∧ n ≤ 127)
  | .i16 => decide (-32768 ≤ n ∧ n ≤ 32767)
  | .i32 => decide (-2147483648 ≤ n ∧ n ≤ 2147483647)
  | .i64 => true

/-- The smallest signed width holding every value
(`pd.to_numeric(..., downcast="integer")` tries int8, int16, ... in
order). -/
def smallestIntW (vals : List Int) : IntW :=
  if vals.all (intFits .i8) then .i8
  else if vals.all (intFits .i16) then .i16
  else if vals.all (intFits .i32) then .i32
  else .i64

/-- Downcasting never widens: keep the current width if it is already the
narrower one. -/
def intWmin (a b : IntW) : IntW := if intBytes a ≤ intBytes b then a else b

/-- Distinct non-missing values of an object column
(`col.nunique(dropna=True)`). -/
def nuniqueCol (vals : List (Option String)) : Nat :=
  (dedupFirst (vals.filterMap id)).length

/-- One column pass of `optimize_dtypes`: float columns downcast to 32
bits when every value survives (`fits32`), rounding each value as the
cast does (`round32`); integer columns downcast to the smallest fitting
width; object columns become categorical when the distinct count is at
most 200 and at most half the row count (`max_cat=200`,
`cat_ratio=0.5`); categorical columns are untouched. -/
def optCol (fits32 : List (Option ℚ) → Bool) (round32 : Option ℚ → Option ℚ) :
    TCol → TCol
  | .floatCol .f64 vs =>
    if fits32 vs then .floatCol .f32 (vs.map round32) else .floatCol .f64 vs
  | .floatCol .f32 vs => .floatCol .f32 vs
  | .intCol w vs => .intCol (intWmin w (smallestIntW vs)) vs
  | .objCol vs =>
    if nuniqueCol vs ≤ 200 ∧ 2 * nuniqueCol vs ≤ vs.length then .catCol vs
    else .objCol vs
  | .catCol vs => .catCol vs

/-- `optimize_dtypes` over a whole table of named, dtyped columns: every
column is optimized except the one named `SEQN`, which the loop skips
(`if c == "SEQN": continue`). -/
def optimize_dtypes (fits32 : List (Option ℚ) → Bool) (round32 : Option ℚ → Option ℚ)
    (df : List (String × TCol)) : List (String × TCol) :=
  df.map (fun p => if p.1 == "SEQN" then p else (p.1, optCol fits32 round32 p.2))

/-! ## Facts about `optimize_dtypes` (claims C8 and C9) -/

lemma intWmin_self (s : IntW) : intWmin s s = s := by
  unfold intWmin
  simp

lemma intWmin_stable (w s : IntW) : intWmin (intWmin w s) s = intWmin w s := by
  by_cases h : intBytes w ≤ intBytes s
  · simp [intWmin, h]
  · simp [intWmin, h, intWmin_self]

lemma optCol_idem (f32 : List (Option ℚ) → Bool) (r32 : Option ℚ → Option ℚ)
    (c : TCol) : optCol f32 r32 (optCol f32 r32 c) = optCol f32 r32 c := by
  cases c with
  | floatCol w vs =>
    cases w with
    | f64 =>
      by_cases h : f32 vs = true
      · simp [optCol, h]
      · simp [optCol, h]
    | f32 => rfl
  | intCol w vs => simp [optCol, intWmin_stable]
  | objCol vs =>
    by_cases h : nuniqueCol vs ≤ 200 ∧ 2 * nuniqueCol vs ≤ vs.length
    · simp [optCol, h]
    · simp [optCol, h]
  | catCol vs => rfl

/-- C8: schema optimization is idempotent — for every component table
(and every behaviour of the library float cast), applying
`optimize_dtypes` twice yields exactly the same columns (hence the same
logical values and the same, in particular no larger, storage width) as
applying it once. -/
theorem claim8_optimize_idempotent (f32 : List (Option ℚ) → Bool)
    (r32 : Option ℚ → Option ℚ) (df : List (String × TCol)) :
    optimize_dtypes f32 r32 (optimize_dtypes f32 r32 df) =
      optimize_dtypes f32 r32 df := by
  unfold optimize_dtypes
  rw [List.map_map]
  apply List.map_congr_left
  intro p _
  by_cases h : p.1 = "SEQN"
  · simp [h]
  · simp [h, optCol_idem]

/-- C9: the schema optimizer leaves every column named `SEQN` completely
unaltered — the optimized table holds, at the same position, the very
same name, dtype and values — while only other columns may change. -/
theorem claim9_seqn_untouched (f32 : List (Option ℚ) → Bool)
    (r32 : Option ℚ → Option ℚ) (df : List (String × TCol)) (i : Nat)
    (p : String × TCol) (hp : df[i]? = some p) (hname : p.1 = "SEQN") :
    (optimize_dtypes f32 r32 df)[i]? = some p := by
  unfold optimize_dtypes
  rw [List.getElem?_map, hp]
  simp [hname]

/-- Witness for C9 at a concrete two-column table. -/
theorem claim9_witness :
    (optimize_dtypes (fun _ => false) (fun q => q)
        [("SEQN", TCol.intCol .i64 [5]), ("X", TCol.intCol .i64 [5])])[0]? =
      some ("SEQN", TCol.intCol .i64 [5]) :=
  claim9_seqn_untouched (fun _ => false) (fun q => q)
    [("SEQN", TCol.intCol .i64 [5]), ("X", TCol.intCol .i64 [5])] 0
    ("SEQN", TCol.intCol .i64 [5]) rfl rfl

/-! ## Namespacer facts used by claim C7 -/

lemma renameCol_eq_append (component c : String) (h : c ≠ "SEQN") :
    renameCol component c = c ++ "__" ++ component := by
  unfold renameCol
  simp [h]

/-- Any name containing an underscore differs from the key name. -/
lemma underscore_ne_seqn (s : String) (h : '_' ∈ s.data) : s ≠ "SEQN" := by
  intro heq
  rw [heq] at h
  exact (by decide : '_' ∉ ("SEQN" : String).data) h

lemma renameCol_ne_seqn (component c : String) (h : c ≠ "SEQN") :
    renameCol component c ≠ "SEQN" := by
  rw [renameCol_eq_append component c h]
  apply underscore_ne_seqn
  simp [String.data_append, show ("__" : String).data = ['_', '_'] from rfl]

/-- Within one component, namespacing is injective on the non-key
columns: the component suffix cancels on the right. -/
lemma renameCol_injOn (m c1 c2 : String) (h1 : c1 ≠ "SEQN") (h2 : c2 ≠ "SEQN")
    (heq : renameCol m c1 = renameCol m c2) : c1 = c2 := by
  rw [renameCol_eq_append m c1 h1, renameCol_eq_append m c2 h2] at heq
  have hd := congrArg String.data heq
  simp only [String.data_append] at hd
  exact String.ext (List.append_cancel_right (List.append_cancel_right hd))


/-! ## The checkpoint round-trip (claim C2) -/

lemma map_getD_range (l : List α) (d : α) :
    (List.range l.length).map (fun i => l.getD i d) = l := by
  induction l with
  | nil => rfl
  | cons a t ih =>
    rw [List.length_cons, List.range_succ_eq_map, List.map_cons, List.map_map]
    simp only [List.getD_cons_zero, Function.comp_def, List.getD_cons_succ]
    rw [ih]

lemma rebuildRows_eq (df : DF) (h : WF df) :
    rebuildRows (keysOf df) (colsOf df) = df.rows := by
  unfold rebuildRows
  have hlen : (keysOf df).length = df.rows.length := List.length_map _ _
  rw [hlen]
  have hcong : ∀ i ∈ List.range df.rows.length,
      ((keysOf df).getD i Cell.null,
        (colsOf df).map (fun col => col.getD i Cell.null)) =
      df.rows.getD i (Cell.null, []) := by
    intro i hi
    rw [List.mem_range] at hi
    have hr : df.rows.getD i (Cell.null, []) = df.rows[i] := by
      rw [List.getD_eq_getElem?_getD, List.getElem?_eq_getElem hi]
      rfl
    have h1 : (keysOf df).getD i Cell.null = (df.rows.getD i (Cell.null, [])).1 := by
      unfold keysOf
      rw [hr, List.getD_eq_getElem?_getD, List.getElem?_map,
        List.getElem?_eq_getElem hi]
      rfl
    have hrowlen : (df.rows.getD i (Cell.null, [])).2.length = df.header.length := by
      rw [hr]
      exact h _ (List.getElem_mem hi)
    have h2 : (colsOf df).map (fun col => col.getD i Cell.null) =
        (df.rows.getD i (Cell.null, [])).2 := by
      unfold colsOf
      rw [List.map_map]
      have hinner : ∀ j ∈ List.range df.header.length,
          ((fun col => col.getD i Cell.null) ∘
            fun j => df.rows.map (fun r => r.2.getD j Cell.null)) j =
          (df.rows.getD i (Cell.null, [])).2.getD j Cell.null := by
        intro j _
        simp only [Function.comp_def, hr]
        rw [List.getD_eq_getElem?_getD, List.getElem?_map,
          List.getElem?_eq_getElem hi]
        rfl
      rw [List.map_congr_left hinner, ← hrowlen, map_getD_range]
    rw [h1, h2]
  rw [List.map_congr_left hcong, map_getD_range]

/-- C2 round-trip core: writing a well-formed accumulator to the columnar
checkpoint and reading it back reproduces it exactly. -/
lemma parquet_round_trip (df : DF) (h : WF df) :
    readParquet (writeParquet df) = df := by
  unfold readParquet writeParquet
  rw [rebuildRows_eq df h]

/-! ## Sorting and deduplication lemmas (claims C1, C5, C6) -/

lemma insLe_perm (le : α → α → Bool) (a : α) (l : List α) :
    (insLe le a l).Perm (a :: l) := by
  induction l with
  | nil => exact List.Perm.refl _
  | cons b t ih =>
    unfold insLe
    by_cases h : le a b
    · simp [h]
    · simp only [h, if_false]
      exact (List.Perm.cons b ih).trans (List.Perm.swap a b t)

lemma sortLe_perm (le : α → α → Bool) (l : List α) : (sortLe le l).Perm l := by
  induction l with
  | nil => exact List.Perm.refl _
  | cons a t ih => exact (insLe_perm le a (sortLe le t)).trans (List.Perm.cons a ih)

lemma hasDupKeys_false_iff (l : List KRow) :
    hasDupKeys l = false ↔ (l.map Prod.fst).Nodup := by
  induction l with
  | nil => simp [hasDupKeys]
  | cons r t ih =>
    simp only [hasDupKeys, Bool.or_eq_false_iff, List.map_cons, List.nodup_cons, ih,
      List.any_eq_false, List.mem_map, beq_iff_eq]
    constructor
    · rintro ⟨h1, h2⟩
      refine ⟨fun hex => ?_, h2⟩
      obtain ⟨s, hs, hkey⟩ := hex
      exact h1 s hs hkey
    · rintro ⟨h1, h2⟩
      exact ⟨fun s hs hkey => h1 ⟨s, hs, hkey⟩, h2⟩

lemma dropDupAux_mem : ∀ (l : List KRow) (seen : List Cell) (r : KRow),
    r ∈ dropDupAux seen l → r ∈ l := by
  intro l
  induction l with
  | nil => intro seen r h; cases h
  | cons a t ih =>
    intro seen r h
    unfold dropDupAux at h
    by_cases hs : a.1 ∈ seen
    · rw [if_pos hs] at h
      exact List.mem_cons_of_mem a (ih seen r h)
    · rw [if_neg hs] at h
      rcases List.mem_cons.mp h with h | h
      · exact h ▸ List.mem_cons_self a t
      · exact List.mem_cons_of_mem a (ih _ r h)

lemma dropDupAux_keys_notin : ∀ (l : List KRow) (seen : List Cell) (k : Cell),
    k ∈ (dropDupAux seen l).map Prod.fst → k ∉ seen := by
  intro l
  induction l with
  | nil => intro seen k h; cases h
  | cons a t ih =>
    intro seen k h
    unfold dropDupAux at h
    by_cases hs : a.1 ∈ seen
    · rw [if_pos hs] at h
      exact ih seen k h
    · rw [if_neg hs] at h
      rcases List.mem_cons.mp h with h | h
      · exact h ▸ hs
      · intro hk
        exact ih (a.1 :: seen) k h (List.mem_cons_of_mem a.1 hk)

lemma dropDupAux_nodup : ∀ (l : List KRow) (seen : List Cell),
    ((dropDupAux seen l).map Prod.fst).Nodup := by
  intro l
  induction l with
  | nil => intro seen; simp [dropDupAux]
  | cons a t ih =>
    intro seen
    unfold dropDupAux
    by_cases hs : a.1 ∈ seen
    · rw [if_pos hs]
      exact ih seen
    · rw [if_neg hs]
      rw [List.map_cons, List.nodup_cons]
      refine ⟨fun hmem => ?_, ih (a.1 :: seen)⟩
      exact dropDupAux_keys_notin t (a.1 :: seen) a.1 hmem (List.mem_cons_self a.1 seen)

lemma dropDupAux_find? : ∀ (l : List KRow) (seen : List Cell) (k : Cell),
    k ∉ seen →
    (dropDupAux seen l).find? (fun r => r.1 == k) = l.find? (fun r => r.1 == k) := by
  intro l
  induction l with
  | nil => intro seen k _; rfl
  | cons a t ih =>
    intro seen k hk
    unfold dropDupAux
    by_cases hs : a.1 ∈ seen
    · rw [if_pos hs]
      have hne : (a.1 == k) = false := by
        simp only [beq_eq_false_iff_ne, ne_eq]
        intro heq
        exact hk (heq ▸ hs)
      rw [List.find?_cons, hne]
      exact ih seen k hk
    · rw [if_neg hs]
      rcases hak : (a.1 == k) with _ | _
      · rw [List.find?_cons, List.find?_cons, hak]
        apply ih
        intro hmem
        rcases List.mem_cons.mp hmem with h | h
        · rw [h] at hak
          simp at hak
        · exact hk h
      · rw [List.find?_cons, List.find?_cons, hak]

lemma dropDupAux_mem_keys : ∀ (l : List KRow) (seen : List Cell) (k : Cell),
    k ∈ (dropDupAux seen l).map Prod.fst ↔ (k ∈ l.map Prod.fst ∧ k ∉ seen) := by
  intro l
  induction l with
  | nil => intro seen k; simp [dropDupAux]
  | cons a t ih =>
    intro seen k
    unfold dropDupAux
    by_cases hs : a.1 ∈ seen
    · rw [if_pos hs, ih, List.map_cons]
      constructor
      · rintro ⟨h1, h2⟩
        exact ⟨List.mem_cons_of_mem _ h1, h2⟩
      · rintro ⟨h1, h2⟩
        rcases List.mem_cons.mp h1 with h | h
        · exact absurd (h ▸ hs) h2
        · exact ⟨h, h2⟩
    · rw [if_neg hs, List.map_cons, List.map_cons, List.mem_cons, List.mem_cons, ih]
      constructor
      · rintro (h | ⟨h1, h2⟩)
        · exact ⟨Or.inl h, h ▸ hs⟩
        · exact ⟨Or.inr h1, fun hk => h2 (List.mem_cons_of_mem _ hk)⟩
      · rintro ⟨h1 | h1, h2⟩
        · exact Or.inl h1
        · by_cases hak : k = a.1
          · exact Or.inl hak
          · exact Or.inr ⟨h1, fun hk => by
              rcases List.mem_cons.mp hk with h | h
              · exact hak h
              · exact h2 h⟩

lemma keys_nodup_unique (l : List KRow) (hnd : (l.map Prod.fst).Nodup) :
    ∀ s ∈ l, ∀ r ∈ l, s.1 = r.1 → s = r := by
  induction l with
  | nil => simp
  | cons a t ih =>
    rw [List.map_cons, List.nodup_cons] at hnd
    intro s hs r hr heq
    rcases List.mem_cons.mp hs with hsa | hst <;> rcases List.mem_cons.mp hr with hra | hrt
    · rw [hsa, hra]
    · exfalso
      apply hnd.1
      rw [← hsa, heq]
      exact List.mem_map_of_mem Prod.fst hrt
    · exfalso
      apply hnd.1
      rw [← hra, ← heq]
      exact List.mem_map_of_mem Prod.fst hst
    · exact ih hnd.2 s hst r hrt heq

lemma find?_eq_some_of_unique (p : α → Bool) (l : List α) (r : α)
    (hall : ∀ s ∈ l, p s = true → s = r) (hr : r ∈ l) (hpr : p r = true) :
    l.find? p = some r := by
  induction l with
  | nil => cases hr
  | cons a t ih =>
    rcases ha : p a with _ | _
    · rw [List.find?_cons, ha]
      apply ih (fun s hs hp => hall s (List.mem_cons_of_mem a hs) hp)
      rcases List.mem_cons.mp hr with h | h
      · exact absurd (h ▸ hpr) (by simp [ha])
      · exact h
    · rw [List.find?_cons, ha]
      exact congrArg some (hall a (List.mem_cons_self a t) ha)

lemma find?_key_perm (l l' : List KRow) (hperm : l.Perm l')
    (hnd : (l.map Prod.fst).Nodup) (k : Cell) :
    l.find? (fun r => r.1 == k) = l'.find? (fun r => r.1 == k) := by
  rcases hfind : l.find? (fun r => r.1 == k) with _ | r
  · have hnone : l'.find? (fun r => r.1 == k) = none := by
      rw [List.find?_eq_none] at hfind ⊢
      intro x hx
      exact hfind x (hperm.symm.subset hx)
    rw [hnone]
    exact hfind
  · symm
    rw [hfind]
    have hrl : r ∈ l := List.mem_of_find?_eq_some hfind
    have hpr := List.find?_some hfind
    apply find?_eq_some_of_unique (fun r => r.1 == k) l' r ?_ (hperm.subset hrl) hpr
    intro s hs hp
    apply keys_nodup_unique l hnd s (hperm.symm.subset hs) r hrl
    simp only [beq_iff_eq] at hp hpr
    rw [hp, hpr]

/-- C6: the loader's deduplication of a non-aggregated component keeps
exactly one row per key, determines the retained row as the first match
in the key-sorted row list (hence identically on repeated runs of the
pure loader), and neither invents nor loses key values. -/
theorem claim6_dedup_determinism (rows : List KRow) :
    ((dedupBySeqn rows).map Prod.fst).Nodup ∧
    (∀ k, (dedupBySeqn rows).find? (fun r => r.1 == k) =
      (sortByKey rows).find? (fun r => r.1 == k)) ∧
    (∀ k, k ∈ (dedupBySeqn rows).map Prod.fst ↔ k ∈ rows.map Prod.fst) := by
  unfold dedupBySeqn
  rcases hdup : hasDupKeys rows with _ | _
  · simp only [hdup, Bool.false_eq_true, if_false]
    have hnd := (hasDupKeys_false_iff rows).mp hdup
    refine ⟨hnd,
      fun k => find?_key_perm rows (sortByKey rows) (sortLe_perm _ rows).symm hnd k, ?_⟩
    simp
  · simp only [hdup, if_true]
    unfold dropDupFirst
    refine ⟨dropDupAux_nodup _ [], fun k => dropDupAux_find? _ [] k (by simp),
      fun k => ?_⟩
    rw [dropDupAux_mem_keys]
    have hmem : k ∈ (sortByKey rows).map Prod.fst ↔ k ∈ rows.map Prod.fst :=
      ((sortLe_perm _ rows).map Prod.fst).mem_iff
    simp [hmem]

/-! ## Key invariants of the loader outputs -/

lemma dedupFirstAux_notin [DecidableEq α] :
    ∀ (l seen : List α) (a : α), a ∈ dedupFirstAux seen l → a ∉ seen := by
  intro l
  induction l with
  | nil => intro seen a h; cases h
  | cons b t ih =>
    intro seen a h
    unfold dedupFirstAux at h
    by_cases hb : b ∈ seen
    · rw [if_pos hb] at h
      exact ih seen a h
    · rw [if_neg hb] at h
      rcases List.mem_cons.mp h with h | h
      · exact h ▸ hb
      · intro ha
        exact ih (b :: seen) a h (List.mem_cons_of_mem b ha)

lemma dedupFirstAux_nodup [DecidableEq α] :
    ∀ (l seen : List α), (dedupFirstAux seen l).Nodup := by
  intro l
  induction l with
  | nil => intro seen; simp [dedupFirstAux]
  | cons b t ih =>
    intro seen
    unfold dedupFirstAux
    by_cases hb : b ∈ seen
    · rw [if_pos hb]
      exact ih seen
    · rw [if_neg hb]
      exact List.nodup_cons.mpr
        ⟨fun hmem => dedupFirstAux_notin t (b :: seen) b hmem (List.mem_cons_self b seen),
         ih (b :: seen)⟩

lemma dedupFirstAux_mem [DecidableEq α] :
    ∀ (l seen : List α) (a : α),
      a ∈ dedupFirstAux seen l ↔ (a ∈ l ∧ a ∉ seen) := by
  intro l
  induction l with
  | nil => intro seen a; simp [dedupFirstAux]
  | cons b t ih =>
    intro seen a
    unfold dedupFirstAux
    by_cases hb : b ∈ seen
    · rw [if_pos hb, ih, List.mem_cons]
      constructor
      · rintro ⟨h1, h2⟩
        exact ⟨Or.inr h1, h2⟩
      · rintro ⟨h1 | h1, h2⟩
        · exact absurd (h1 ▸ hb) h2
        · exact ⟨h1, h2⟩
    · rw [if_neg hb, List.mem_cons, List.mem_cons, ih]
      constructor
      · rintro (h | ⟨h1, h2⟩)
        · exact ⟨Or.inl h, h ▸ hb⟩
        · exact ⟨Or.inr h1, fun ha => h2 (List.mem_cons_of_mem b ha)⟩
      · rintro ⟨h1 | h1, h2⟩
        · exact Or.inl h1
        · by_cases hab : a = b
          · exact Or.inl hab
          · refine Or.inr ⟨h1, fun ha => ?_⟩
            rcases List.mem_cons.mp ha with h | h
            · exact hab h
            · exact h2 h

lemma medsPath_map_fst (pairs : List (Cell × Cell)) :
    (medsPath pairs).map Prod.fst =
      sortLe cellLe (dedupFirst
        (((pairs.filter (fun p => !(p.2 == Cell.null))).map Prod.fst).filter
          (fun k => !(k == Cell.null)))) := by
  unfold medsPath
  simp only [List.map_map, Function.comp_def]
  exact List.map_id _

lemma medsPath_keys_nodup (pairs : List (Cell × Cell)) :
    ((medsPath pairs).map Prod.fst).Nodup := by
  rw [medsPath_map_fst]
  exact ((sortLe_perm cellLe _).nodup_iff).mpr (dedupFirstAux_nodup _ [])

lemma dedupBySeqn_mem (rows : List KRow) (r : KRow) (h : r ∈ dedupBySeqn rows) :
    r ∈ rows := by
  unfold dedupBySeqn at h
  rcases hdup : hasDupKeys rows with _ | _
  · rw [hdup] at h
    simpa using h
  · rw [hdup] at h
    simp only [if_true] at h
    exact (sortLe_perm _ rows).subset (dropDupAux_mem _ [] r h)

lemma dedupBySeqn_nodup (rows : List KRow) :
    ((dedupBySeqn rows).map Prod.fst).Nodup := by
  unfold dedupBySeqn
  rcases hdup : hasDupKeys rows with _ | _
  · simp only [Bool.false_eq_true, if_false]
    exact (hasDupKeys_false_iff rows).mp hdup
  · simp only [if_true]
    exact dropDupAux_nodup _ []

/-- Every successfully loaded component table is well-formed and has no
duplicate keys — the invariant of §3 of the spec (one row per subject). -/
lemma read_any_ok {f : FileIn} {df : DF} (h : read_any f = .ok df) :
    WF df ∧ (keysOf df).Nodup := by
  unfold read_any at h
  by_cases hext : ¬ (f.ext = ".csv" ∨ f.ext = ".xlsx" ∨ f.ext = ".xls")
  · rw [if_pos hext] at h
    cases h
  · rw [if_neg hext] at h
    cases hp : f.parsed with
    | error e =>
      rw [hp] at h
      cases h
    | ok raw =>
      rw [hp] at h
      dsimp only at h
      by_cases hs : "SEQN" ∈ normHeader raw
      · rw [if_pos hs] at h
        by_cases hm : (medsName f.name && decide ("RXDDRUG" ∈ keptHeader raw)) = true
        · rw [if_pos hm] at h
          injection h with h
          subst h
          constructor
          · intro r hr
            obtain ⟨p, _, hpr⟩ := List.mem_map.mp hr
            rw [← hpr]
            rfl
          · unfold keysOf
            rw [List.map_map]
            exact medsPath_keys_nodup (medsPairs raw)
        · rw [if_neg hm] at h
          injection h with h
          subst h
          constructor
          · intro r hr
            have hr' := dedupBySeqn_mem _ r hr
            obtain ⟨row, _, hrr⟩ := List.mem_map.mp hr'
            rw [← hrr]
            simp [keptHeader]
          · exact dedupBySeqn_nodup _
      · rw [if_neg hs] at h
        cases h

/-! ## Left-merge invariants (claims C1 and C10) -/

lemma filter_key_cases (l : List KRow) (hnd : (l.map Prod.fst).Nodup) (k : Cell) :
    l.filter (fun s => s.1 == k) = [] ∨ ∃ s, l.filter (fun s => s.1 == k) = [s] := by
  induction l with
  | nil => exact Or.inl rfl
  | cons a t ih =>
    rw [List.map_cons, List.nodup_cons] at hnd
    rw [List.filter_cons]
    rcases hak : (a.1 == k) with _ | _
    · simpa using ih hnd.2
    · simp only [if_true]
      have hnil : t.filter (fun s => s.1 == k) = [] := by
        rw [List.filter_eq_nil_iff]
        intro s hst
        simp only [beq_iff_eq] at hak ⊢
        intro hsk
        exact hnd.1 ((hsk.trans hak.symm) ▸ List.mem_map_of_mem Prod.fst hst)
      rw [hnil]
      exact Or.inr ⟨a, rfl⟩

lemma leftMerge_rowfun_fst (b : DF) (hb : (keysOf b).Nodup) (r : KRow) :
    ((let ms := b.rows.filter (fun s => s.1 == r.1)
      if ms.isEmpty then [(r.1, r.2 ++ List.replicate b.header.length Cell.null)]
      else ms.map (fun s => (r.1, r.2 ++ s.2))).map Prod.fst) = [r.1] := by
  rcases filter_key_cases b.rows hb r.1 with hnil | ⟨s, hone⟩
  · simp only [hnil, List.isEmpty_nil, if_true, List.map_cons, List.map_nil]
  · simp only [hone, List.isEmpty_cons, Bool.false_eq_true, if_false,
      List.map_cons, List.map_nil]

lemma leftMerge_keys (a b : DF) (hb : (keysOf b).Nodup) :
    keysOf (leftMerge a b) = keysOf a := by
  unfold leftMerge keysOf
  show (a.rows.flatMap _).map Prod.fst = _
  induction a.rows with
  | nil => rfl
  | cons r t ih =>
    rw [List.flatMap_cons, List.map_append, ih, List.map_cons]
    rw [leftMerge_rowfun_fst b hb r]
    rfl

lemma leftMerge_wf (a b : DF) (ha : WF a) (hb : WF b) : WF (leftMerge a b) := by
  intro r hr
  unfold leftMerge at hr
  simp only at hr
  obtain ⟨r0, hr0, hrF⟩ := List.mem_flatMap.mp hr
  show r.2.length = (a.header ++ b.header).length
  rw [List.length_append]
  by_cases hempty : (b.rows.filter (fun s => s.1 == r0.1)).isEmpty = true
  · rw [if_pos hempty] at hrF
    rcases List.mem_cons.mp hrF with h | h
    · rw [h]
      simp [ha r0 hr0]
    · cases h
  · rw [if_neg hempty] at hrF
    obtain ⟨s, hsmem, hseq⟩ := List.mem_map.mp hrF
    have hsb : s ∈ b.rows := List.mem_of_mem_filter hsmem
    rw [← hseq]
    simp [ha r0 hr0, hb s hsb]

/-! ## Per-step invariants of the merge loop -/

lemma rebuildRows_map_fst (keys : List Cell) (cols : List (List Cell)) :
    (rebuildRows keys cols).map Prod.fst = keys := by
  unfold rebuildRows
  rw [List.map_map]
  exact map_getD_range keys Cell.null

lemma applyOpt_keys (opt : String → List Cell → List Cell) (df : DF) :
    keysOf (applyOpt opt df) = keysOf df := by
  unfold applyOpt keysOf
  exact rebuildRows_map_fst _ _

lemma applyOpt_header (opt : String → List Cell → List Cell) (df : DF) :
    (applyOpt opt df).header = df.header := rfl

lemma applyOpt_wf (opt : String → List Cell → List Cell) (df : DF) :
    WF (applyOpt opt df) := by
  intro r hr
  unfold applyOpt rebuildRows at hr
  obtain ⟨i, _, hir⟩ := List.mem_map.mp hr
  rw [← hir]
  show (((df.header.zip (colsOf df)).map (fun p => opt p.1 p.2)).map
      (fun col => col.getD i Cell.null)).length = (applyOpt opt df).header.length
  rw [applyOpt_header, List.length_map, List.length_map, List.length_zip]
  unfold colsOf
  rw [List.length_map, List.length_range]
  exact Nat.min_self _

lemma suffix_non_key_keys (df : DF) (comp : String) :
    keysOf (suffix_non_key df comp) = keysOf df := rfl

lemma suffix_non_key_wf (df : DF) (comp : String) (h : WF df) :
    WF (suffix_non_key df comp) := by
  intro r hr
  show r.2.length = (df.header.map _).length
  rw [List.length_map]
  exact h r hr

lemma processOk_keys (opt : String → List Cell → List Cell) (f : FileIn) (df0 : DF) :
    keysOf (processOk opt f df0) = keysOf df0 := by
  unfold processOk
  rw [suffix_non_key_keys, applyOpt_keys]

lemma processOk_wf (opt : String → List Cell → List Cell) (f : FileIn) (df0 : DF) :
    WF (processOk opt f df0) :=
  suffix_non_key_wf _ _ (applyOpt_wf opt df0)

lemma keysOf_length (df : DF) : (keysOf df).length = df.rows.length :=
  List.length_map _ _

lemma processOk_rowcount (opt : String → List Cell → List Cell) (f : FileIn) (df0 : DF) :
    (processOk opt f df0).rows.length = df0.rows.length := by
  rw [← keysOf_length, ← keysOf_length, processOk_keys]

/-- With the checkpoint round-trip applied to a well-formed accumulator,
one loop iteration of the real code equals the checkpoint-free
iteration. -/
lemma stepCK_eq_stepNC (opt : String → List Cell → List Cell) (st : RunState)
    (f : FileIn) (hwf : ∀ a, st.acc = some a → WF a) :
    stepCK opt st f = stepNC opt st f := by
  unfold stepCK stepNC
  cases hread : read_any f with
  | error e => rfl
  | ok df0 =>
    dsimp only
    cases hacc : st.acc with
    | none =>
      dsimp only
      rw [parquet_round_trip _ (processOk_wf opt f df0)]
    | some a =>
      dsimp only
      rw [parquet_round_trip _ (leftMerge_wf a _ (hwf a hacc) (processOk_wf opt f df0))]

/-- The accumulator is well-formed in every reachable state of the
checkpoint-free loop. -/
lemma stepNC_wf (opt : String → List Cell → List Cell) (st : RunState) (f : FileIn)
    (hwf : ∀ a, st.acc = some a → WF a) :
    ∀ a, (stepNC opt st f).acc = some a → WF a := by
  unfold stepNC
  cases hread : read_any f with
  | error e => exact hwf
  | ok df0 =>
    dsimp only
    cases hacc : st.acc with
    | none =>
      intro a ha
      dsimp only at ha
      injection ha with ha
      rw [← ha]
      exact processOk_wf opt f df0
    | some a0 =>
      intro a ha
      dsimp only at ha
      injection ha with ha
      rw [← ha]
      exact leftMerge_wf a0 _ (hwf a0 hacc) (processOk_wf opt f df0)

lemma foldl_stepCK_eq (opt : String → List Cell → List Cell) :
    ∀ (files : List FileIn) (st : RunState), (∀ a, st.acc = some a → WF a) →
      files.foldl (stepCK opt) st = files.foldl (stepNC opt) st := by
  intro files
  induction files with
  | nil => intro st _; rfl
  | cons f t ih =>
    intro st hwf
    rw [List.foldl_cons, List.foldl_cons, stepCK_eq_stepNC opt st f hwf]
    exact ih (stepNC opt st f) (stepNC_wf opt st f hwf)

lemma foldl_stepNC_some (opt : String → List Cell → List Cell) :
    ∀ (files : List FileIn) (a : DF) (rep : List ReportRow), WF a →
      ∃ a' rep', files.foldl (stepNC opt) ⟨some a, rep⟩ = ⟨some a', rep'⟩ ∧
        keysOf a' = keysOf a ∧ WF a' := by
  intro files
  induction files with
  | nil => exact fun a rep hwf => ⟨a, rep, rfl, rfl, hwf⟩
  | cons f t ih =>
    intro a rep hwf
    rw [List.foldl_cons]
    cases hread : read_any f with
    | error e =>
      have hst : stepNC opt ⟨some a, rep⟩ f = ⟨some a, rep⟩ := by
        unfold stepNC
        rw [hread]
      rw [hst]
      exact ih a rep hwf
    | ok df0 =>
      have hnodup : (keysOf (processOk opt f df0)).Nodup := by
        rw [processOk_keys]
        exact (read_any_ok hread).2
      have hst : stepNC opt ⟨some a, rep⟩ f =
          ⟨some (leftMerge a (processOk opt f df0)),
           rep ++ [⟨component_from_filename f.stem, f.name,
             (processOk opt f df0).rows.length,
             (processOk opt f df0).header.length + 1⟩]⟩ := by
        unfold stepNC
        rw [hread]
      rw [hst]
      obtain ⟨a', rep', hfold, hkeys, hwf'⟩ :=
        ih (leftMerge a (processOk opt f df0)) _
          (leftMerge_wf a _ hwf (processOk_wf opt f df0))
      refine ⟨a', rep', hfold, ?_, hwf'⟩
      rw [hkeys, leftMerge_keys a _ hnodup]

lemma foldl_stepNC_none (opt : String → List Cell → List Cell) :
    ∀ (files : List FileIn) (f : FileIn) (df0 : DF),
      files.find? (fun g => (read_any g).isOk) = some f →
      read_any f = .ok df0 →
      ∃ a' rep', files.foldl (stepNC opt) ⟨none, []⟩ = ⟨some a', rep'⟩ ∧
        a'.rows.length = df0.rows.length := by
  intro files
  induction files with
  | nil =>
    intro f df0 hfind _
    cases hfind
  | cons g t ih =>
    intro f df0 hfind hok
    rw [List.foldl_cons]
    cases hread : read_any g with
    | error e =>
      have hfalse : (read_any g).isOk = false := by
        rw [hread]
        rfl
      rw [List.find?_cons, hfalse] at hfind
      have hst : stepNC opt ⟨none, []⟩ g = ⟨none, []⟩ := by
        unfold stepNC
        rw [hread]
      rw [hst]
      exact ih f df0 hfind hok
    | ok dg =>
      have htrue : (read_any g).isOk = true := by
        rw [hread]
        rfl
      rw [List.find?_cons, htrue] at hfind
      injection hfind with hfg
      subst hfg
      rw [hok] at hread
      injection hread with hdg
      subst hdg
      have hst : stepNC opt ⟨none, []⟩ g =
          ⟨some (processOk opt g df0),
           [⟨component_from_filename g.stem, g.name,
             (processOk opt g df0).rows.length,
             (processOk opt g df0).header.length + 1⟩]⟩ := by
        unfold stepNC
        rw [hok]
        rfl
      rw [hst]
      obtain ⟨a', rep', hfold, hkeys, _⟩ :=
        foldl_stepNC_some opt t (processOk opt g df0) _ (processOk_wf opt g df0)
      refine ⟨a', rep', hfold, ?_⟩
      rw [← keysOf_length, hkeys, processOk_keys, keysOf_length]

lemma foldl_none_of_all_fail (opt : String → List Cell → List Cell) :
    ∀ files : List FileIn, (∀ f ∈ files, (read_any f).isOk = false) →
      files.foldl (stepCK opt) ⟨none, []⟩ = ⟨none, []⟩ := by
  intro files
  induction files with
  | nil => intro _; rfl
  | cons f t ih =>
    intro h
    rw [List.foldl_cons]
    have hf := h f (List.mem_cons_self f t)
    cases hread : read_any f with
    | error e =>
      have hst : stepCK opt ⟨none, []⟩ f = ⟨none, []⟩ := by
        unfold stepCK
        rw [hread]
      rw [hst]
      exact ih (fun g hg => h g (List.mem_cons_of_mem f hg))
    | ok df0 =>
      rw [hread] at hf
      cases hf

/-! ## Concrete inputs used by the witnesses -/

instance {ε α : Type} [DecidableEq ε] [DecidableEq α] : DecidableEq (Except ε α)
  | .ok a, .ok b =>
    if h : a = b then .isTrue (by rw [h]) else .isFalse (by simp [h])
  | .error e, .error e' =>
    if h : e = e' then .isTrue (by rw [h]) else .isFalse (by simp [h])
  | .ok _, .error _ => .isFalse (by simp)
  | .error _, .ok _ => .isFalse (by simp)

deriving instance DecidableEq for FileIn

def demoRaw : Raw :=
  ⟨["SEQN", "X"], [[Cell.num 1, Cell.str "a"], [Cell.num 2, Cell.str "b"]]⟩

def demoFile : FileIn :=
  ⟨"demographics_clean.csv", "demographics_clean", ".csv", .ok demoRaw⟩

def demoDF : DF :=
  ⟨["X"], [(Cell.num 1, [Cell.str "a"]), (Cell.num 2, [Cell.str "b"])]⟩

def badFile : FileIn := ⟨"notes_clean.txt", "notes_clean", ".txt", .error "unreadable"⟩

def idOpt : String → List Cell → List Cell := fun _ vs => vs

/-! ## The run-level claims -/

/-- C1: in every run with at least one successfully loaded component, the
final merged table has exactly the row count of the first successfully
loaded (anchor) component; and each merge step is a left join on the key
that reproduces the accumulator's key column exactly (every accumulator
key once, keys only in the incoming component dropped). -/
theorem claim1_left_join_row_invariant (opt : String → List Cell → List Cell)
    (files : List FileIn) (f : FileIn) (df0 : DF)
    (hfind : files.find? (fun g => (read_any g).isOk) = some f)
    (hok : read_any f = .ok df0) :
    (∃ out rep, mainRun opt files = .ok (out, rep) ∧
      out.rows.length = df0.rows.length) ∧
    (∀ a b : DF, (keysOf b).Nodup → keysOf (leftMerge a b) = keysOf a) := by
  constructor
  · have hck := foldl_stepCK_eq opt files ⟨none, []⟩ (fun a ha => by cases ha)
    obtain ⟨a', rep', hfold, hlen⟩ := foldl_stepNC_none opt files f df0 hfind hok
    refine ⟨a', rep', ?_, hlen⟩
    unfold mainRun runLoop
    rw [hck, hfold]
  · exact fun a b hb => leftMerge_keys a b hb

/-- Witness for C1: a one-file run whose anchor has two rows. -/
theorem claim1_witness :
    (∃ out rep, mainRun idOpt [demoFile] = .ok (out, rep) ∧
      out.rows.length = demoDF.rows.length) ∧
    (∀ a b : DF, (keysOf b).Nodup → keysOf (leftMerge a b) = keysOf a) :=
  claim1_left_join_row_invariant idOpt [demoFile] demoFile demoDF (by decide) (by decide)

/-- C2: the checkpoint write-then-read round-trip returns the accumulator
unchanged (same rows, columns and values), and therefore the real loop —
which checkpoints and reloads after every merge — computes exactly the
same states as the loop without any checkpointing. -/
theorem claim2_checkpoint_roundtrip (df : DF) (h : WF df)
    (opt : String → List Cell → List Cell) (files : List FileIn) :
    readParquet (writeParquet df) = df ∧ runLoop opt files = runLoopNC opt files :=
  ⟨parquet_round_trip df h,
   by
    unfold runLoop runLoopNC
    exact foldl_stepCK_eq opt files ⟨none, []⟩ (fun a ha => by cases ha)⟩

/-- Witness for C2 at a concrete table and a concrete one-file run. -/
theorem claim2_witness :
    readParquet (writeParquet demoDF) = demoDF ∧
    runLoop idOpt [demoFile] = runLoopNC idOpt [demoFile] :=
  claim2_checkpoint_roundtrip demoDF (by decide) idOpt [demoFile]

/-- C3: if no component loads successfully, finalization fails: the run
ends in the error `"No data merged. Exiting."` (a non-zero exit with a
diagnostic) and no final table or report is produced. -/
theorem claim3_empty_merge_error (opt : String → List Cell → List Cell)
    (files : List FileIn) (h : ∀ f ∈ files, (read_any f).isOk = false) :
    mainRun opt files = .error "No data merged. Exiting." := by
  unfold mainRun runLoop
  rw [foldl_none_of_all_fail opt files h]

/-- Witness for C3: a run over one unreadable file fails. -/
theorem claim3_witness :
    mainRun idOpt [badFile] = .error "No data merged. Exiting." :=
  claim3_empty_merge_error idOpt [badFile] (by decide)

/-! ## The medication aggregation claims (C5 and C10) -/

lemma filter_map_gen {α β : Type} (f : α → β) (p : β → Bool) (l : List α) :
    (l.map f).filter p = (l.filter (fun a => p (f a))).map f := by
  induction l with
  | nil => rfl
  | cons a t ih =>
    by_cases h : p (f a) = true <;> simp [List.filter_cons, h, ih]

lemma filter_and_comm {α : Type} (p q : α → Bool) (l : List α) :
    (l.filter p).filter q = l.filter (fun a => p a && q a) := by
  induction l with
  | nil => rfl
  | cons a t ih =>
    by_cases hp : p a = true <;> by_cases hq : q a = true <;>
      simp [List.filter_cons, hp, hq, ih]

/-- Definition following the claim's words (C5): keep only the key and
the designated attribute; the output has exactly one row per key having
at least one non-missing attribute value (missing keys are excluded by
the group-by), in sorted key order, and each row's value concatenates all
non-missing attribute values of that key with `", "` in source row
order. -/
def medsAggSpec (pairs : List (Cell × Cell)) : List (Cell × Cell) :=
  let keys := sortLe cellLe (dedupFirst
    ((pairs.filter (fun p => !(p.2 == Cell.null) && !(p.1 == Cell.null))).map Prod.fst))
  keys.map (fun k =>
    (k, Cell.str (String.intercalate ", "
      ((pairs.filter (fun p => p.1 == k && !(p.2 == Cell.null))).map
        (fun p => cellToStr p.2)))))

/-- The selected/dropna/astype/group-by pipeline of the code equals the
claim's direct description of the aggregation. -/
lemma medsPath_eq_spec (pairs : List (Cell × Cell)) :
    medsPath pairs = medsAggSpec pairs := by
  unfold medsPath medsAggSpec
  dsimp only
  have hkeys :
      ((((pairs.filter (fun p => !(p.2 == Cell.null))).map
          (fun p => (p.1, cellToStr p.2))).map Prod.fst).filter
        (fun k => !(k == Cell.null))) =
      (pairs.filter (fun p => !(p.2 == Cell.null) && !(p.1 == Cell.null))).map
        Prod.fst := by
    rw [List.map_map]
    rw [show ((Prod.fst ∘ fun p : Cell × Cell => (p.1, cellToStr p.2)) =
      (Prod.fst : Cell × Cell → Cell)) from rfl]
    rw [filter_map_gen Prod.fst (fun k => !(k == Cell.null))
      (pairs.filter (fun p => !(p.2 == Cell.null)))]
    rw [filter_and_comm]
  rw [hkeys]
  apply List.map_congr_left
  intro k _
  have hvals :
      ((((pairs.filter (fun p => !(p.2 == Cell.null))).map
          (fun p => (p.1, cellToStr p.2))).filter (fun q => q.1 == k)).map
        Prod.snd) =
      (pairs.filter (fun p => p.1 == k && !(p.2 == Cell.null))).map
        (fun p => cellToStr p.2) := by
    rw [filter_map_gen (fun p : Cell × Cell => (p.1, cellToStr p.2))
      (fun q => q.1 == k) (pairs.filter (fun p => !(p.2 == Cell.null)))]
    rw [List.map_map]
    rw [filter_and_comm]
    apply congrArg
    apply List.filter_congr
    intro p _
    exact Bool.and_comm _ _
  rw [hvals]

/-- C5: for every source classified as a one-to-many medication
component, the loader keeps only the key and the `RXDDRUG` attribute and
aggregates exactly as the claim describes: all non-null attribute values
per key joined with a comma in source row order, duplicates preserved,
one row per key. -/
theorem claim5_medication_aggregation (f : FileIn) (raw : Raw)
    (hext : f.ext = ".csv" ∨ f.ext = ".xlsx" ∨ f.ext = ".xls")
    (hparse : f.parsed = .ok raw)
    (hseqn : "SEQN" ∈ normHeader raw)
    (hmeds : medsName f.name = true)
    (hrx : "RXDDRUG" ∈ keptHeader raw) :
    read_any f =
      .ok ⟨["RXDDRUG"],
        (medsAggSpec (medsPairs raw)).map (fun p => (p.1, [p.2]))⟩ := by
  unfold read_any
  rw [if_neg (not_not_intro hext), hparse]
  dsimp only
  rw [if_pos hseqn]
  have hcond : (medsName f.name && decide ("RXDDRUG" ∈ keptHeader raw)) = true := by
    rw [hmeds]
    simpa using hrx
  rw [if_pos hcond, medsPath_eq_spec]

def medsRaw : Raw :=
  ⟨["SEQN", "RXDDRUG"],
   [[Cell.num 1, Cell.str "A"], [Cell.num 1, Cell.str "B"], [Cell.num 2, Cell.str "C"]]⟩

def medsFile : FileIn := ⟨"rxq_rx_clean.csv", "rxq_rx_clean", ".csv", .ok medsRaw⟩

/-- Witness for C5: the claim's own example — rows (1, "A"), (1, "B"),
(2, "C") aggregate to (1, "A, B"), (2, "C"). -/
theorem claim5_witness :
    read_any medsFile =
      .ok ⟨["RXDDRUG"],
        [(Cell.num 1, [Cell.str "A, B"]), (Cell.num 2, [Cell.str "C"])]⟩ :=
  (claim5_medication_aggregation medsFile medsRaw (Or.inl rfl) rfl (by decide)
    (by decide) (by decide)).trans (by decide)

/-- C10: a key whose `RXDDRUG` values are all missing is dropped from the
aggregated medication component before grouping — the component's key set
is exactly the keys with at least one non-missing attribute value — and
after the left join such a subject's medication cells are filled with the
missing-value sentinel. -/
theorem claim10_all_null_key_dropped :
    (∀ (pairs : List (Cell × Cell)) (k : Cell), k ≠ Cell.null →
      (k ∈ (medsPath pairs).map Prod.fst ↔
        ∃ p ∈ pairs, p.1 = k ∧ p.2 ≠ Cell.null)) ∧
    (∀ (a b : DF) (r : KRow), r ∈ a.rows → r.1 ∉ keysOf b →
      (r.1, r.2 ++ List.replicate b.header.length Cell.null) ∈
        (leftMerge a b).rows) := by
  constructor
  · intro pairs k hk
    rw [medsPath_map_fst]
    rw [((sortLe_perm cellLe _).mem_iff)]
    unfold dedupFirst
    rw [dedupFirstAux_mem]
    simp only [List.mem_filter, List.mem_map, List.not_mem_nil, not_false_iff,
      and_true, Bool.not_eq_true', beq_eq_false_iff_ne, ne_eq]
    constructor
    · rintro ⟨⟨p, hp, hpk⟩, _⟩
      exact ⟨p, hp.1, hpk, hp.2⟩
    · rintro ⟨p, hpmem, hpk, hpv⟩
      exact ⟨⟨p, ⟨hpmem, hpv⟩, hpk⟩, by simpa using hk⟩
  · intro a b r hr hkey
    unfold leftMerge
    dsimp only
    apply List.mem_flatMap.mpr
    refine ⟨r, hr, ?_⟩
    have hnil : b.rows.filter (fun s => s.1 == r.1) = [] := by
      rw [List.filter_eq_nil_iff]
      intro s hs
      simp only [beq_iff_eq]
      intro hseq
      exact hkey (hseq ▸ List.mem_map_of_mem Prod.fst hs)
    rw [hnil]
    simp

def nullKeyPairs : List (Cell × Cell) :=
  [(Cell.num 1, Cell.str "A"), (Cell.num 2, Cell.null), (Cell.num 2, Cell.str "C")]

def accTen : DF := ⟨["X"], [(Cell.num 5, [Cell.str "x"])]⟩

def medsTen : DF := ⟨["RXDDRUG__meds"], [(Cell.num 1, [Cell.str "A"])]⟩

/-- Witness for C10: key 2 stays (one non-null value), and subject 5 —
absent from the medication component — receives a missing sentinel. -/
theorem claim10_witness :
    ((Cell.num 2) ∈ (medsPath nullKeyPairs).map Prod.fst ↔
      ∃ p ∈ nullKeyPairs, p.1 = Cell.num 2 ∧ p.2 ≠ Cell.null) ∧
    ((Cell.num 5, [Cell.str "x"] ++ List.replicate medsTen.header.length Cell.null) ∈
      (leftMerge accTen medsTen).rows) :=
  ⟨claim10_all_null_key_dropped.1 nullKeyPairs (Cell.num 2) (by decide),
   claim10_all_null_key_dropped.2 accTen medsTen (Cell.num 5, [Cell.str "x"])
     (by decide) (by decide)⟩

/-! ## The exact merge step and loop (claims C4 and C7)

`accumulator.merge(df, on="SEQN", how="left")` is library code with two
documented behaviours that the plain `leftMerge` model leaves out:
overlapping non-key column names are renamed with the default suffixes
`"_x"` (left) and `"_y"` (right), and the merge raises instead of
returning a frame — on a numeric-vs-object join-key dtype mismatch
(`ValueError`), and when the suffixed names would still collide
(`MergeError`).  The `try` of `main` guards only `read_any`
(lines 143-147 of `merge_nhanes_files.py`), so a merge failure is not
caught and ends the whole run. -/

/-- Is the key column an object column?  A column read from CSV has
object dtype exactly when it holds at least one string value. -/
def isObjKey (df : DF) : Bool :=
  (keysOf df).any (fun k => match k with | Cell.str _ => true | _ => false)

/-- Default suffixing of `DataFrame.merge`: a non-key name present on
both sides becomes `<name>_x` on the left and `<name>_y` on the right. -/
def suffixHeaders (L R : List String) : List String :=
  L.map (fun c => if c ∈ R then c ++ "_x" else c) ++
  R.map (fun c => if c ∈ L then c ++ "_y" else c)

/-- The merge with its library failure modes: dtype-mismatched keys and
suffix collisions raise; otherwise the result carries the suffixed
headers over the left-join rows. -/
def leftMergeX (a b : DF) : Except String DF :=
  if isObjKey a != isObjKey b then
    .error "You are trying to merge on object and int64 columns"
  else if (suffixHeaders a.header b.header).Nodup then
    .ok ⟨suffixHeaders a.header b.header, (leftMerge a b).rows⟩
  else .error "Passing suffixes which cause duplicate columns is not allowed"

/-- One loop iteration with the failure modes: a load failure is caught
by the `try` and skipped; a merge failure is not caught and aborts. -/
def stepX (opt : String → List Cell → List Cell) (st : RunState) (f : FileIn) :
    Except String RunState :=
  match read_any f with
  | .error _ => .ok st
  | .ok df0 =>
    let df2 := processOk opt f df0
    let rep := st.report ++ [⟨component_from_filename f.stem, f.name,
      df2.rows.length, df2.header.length + 1⟩]
    match st.acc with
    | none => .ok ⟨some (readParquet (writeParquet df2)), rep⟩
    | some a =>
      match leftMergeX a df2 with
      | .error e => .error e
      | .ok m => .ok ⟨some (readParquet (writeParquet m)), rep⟩

def runLoopXAux (opt : String → List Cell → List Cell) :
    RunState → List FileIn → Except String RunState
  | st, [] => .ok st
  | st, f :: t =>
    match stepX opt st f with
    | .error e => .error e
    | .ok st' => runLoopXAux opt st' t

/-- The merge loop with the uncaught merge failures. -/
def runLoopX (opt : String → List Cell → List Cell) (files : List FileIn) :
    Except String RunState :=
  runLoopXAux opt ⟨none, []⟩ files

lemma leftMergeX_ok {a b m : DF} (h : leftMergeX a b = .ok m) :
    m.header = suffixHeaders a.header b.header ∧ m.header.Nodup := by
  unfold leftMergeX at h
  by_cases h1 : (isObjKey a != isObjKey b) = true
  · rw [if_pos h1] at h
    cases h
  · rw [if_neg h1] at h
    by_cases h2 : (suffixHeaders a.header b.header).Nodup
    · rw [if_pos h2] at h
      injection h with h
      rw [← h]
      exact ⟨rfl, h2⟩
    · rw [if_neg h2] at h
      cases h

lemma suffixHeaders_ne_seqn (L R : List String)
    (hL : ∀ c ∈ L, c ≠ "SEQN") (hR : ∀ c ∈ R, c ≠ "SEQN") :
    ∀ c ∈ suffixHeaders L R, c ≠ "SEQN" := by
  intro c hc
  unfold suffixHeaders at hc
  rcases List.mem_append.mp hc with h | h
  · obtain ⟨c0, hc0, hcc⟩ := List.mem_map.mp h
    by_cases hmem : c0 ∈ R
    · rw [if_pos hmem] at hcc
      rw [← hcc]
      apply underscore_ne_seqn
      simp [String.data_append, show ("_x" : String).data = ['_', 'x'] from rfl]
    · rw [if_neg hmem] at hcc
      rw [← hcc]
      exact hL c0 hc0
  · obtain ⟨c0, hc0, hcc⟩ := List.mem_map.mp h
    by_cases hmem : c0 ∈ L
    · rw [if_pos hmem] at hcc
      rw [← hcc]
      apply underscore_ne_seqn
      simp [String.data_append, show ("_y" : String).data = ['_', 'y'] from rfl]
    · rw [if_neg hmem] at hcc
      rw [← hcc]
      exact hR c0 hc0

/-- Namespacing a duplicate-free, key-free header keeps it so. -/
lemma suffix_header_ok (df : DF) (m : String) (hn : df.header.Nodup)
    (hs : "SEQN" ∉ df.header) :
    (df.header.map (renameCol m)).Nodup ∧
      ∀ c ∈ df.header.map (renameCol m), c ≠ "SEQN" := by
  constructor
  · apply List.Nodup.map_on ?_ hn
    intro x hx y hy hxy
    exact renameCol_injOn m x y (fun h => hs (h ▸ hx)) (fun h => hs (h ▸ hy)) hxy
  · intro c hc
    obtain ⟨c0, hc0, hcc⟩ := List.mem_map.mp hc
    rw [← hcc]
    exact renameCol_ne_seqn m c0 (fun h => hs (h ▸ hc0))

/-- After a successful load, the component's non-key header is duplicate
free and does not itself contain the key name (the library reader mangles
duplicated column names on read, so loaded frames satisfy this). -/
def headerOkAfterLoad (f : FileIn) : Prop :=
  ∀ df, read_any f = .ok df → df.header.Nodup ∧ "SEQN" ∉ df.header

instance (f : FileIn) : Decidable (headerOkAfterLoad f) :=
  match h : read_any f with
  | .ok df =>
    if hd : df.header.Nodup ∧ "SEQN" ∉ df.header then
      .isTrue (fun df' hdf' => by
        rw [h] at hdf'
        injection hdf' with e
        rw [← e]
        exact hd)
    else .isFalse (fun hall => hd (hall df h))
  | .error e => .isTrue (fun df hdf => by rw [h] at hdf; cases hdf)

/-- Loop invariant for C7: the accumulator's non-key header is duplicate
free and never contains the key name. -/
def AccHeaderOk (st : RunState) : Prop :=
  ∀ a, st.acc = some a → a.header.Nodup ∧ ∀ c ∈ a.header, c ≠ "SEQN"

lemma stepX_headerOk (opt : String → List Cell → List Cell) (st : RunState)
    (f : FileIn) (st' : RunState) (hok : headerOkAfterLoad f)
    (hinv : AccHeaderOk st) (hstep : stepX opt st f = .ok st') :
    AccHeaderOk st' := by
  unfold stepX at hstep
  cases hread : read_any f with
  | error e =>
    rw [hread] at hstep
    injection hstep with h
    rw [← h]
    exact hinv
  | ok df0 =>
    rw [hread] at hstep
    dsimp only at hstep
    obtain ⟨hn0, hs0⟩ := hok df0 hread
    have hclean := suffix_header_ok df0 (component_from_filename f.stem) hn0 hs0
    cases hacc : st.acc with
    | none =>
      rw [hacc] at hstep
      dsimp only at hstep
      injection hstep with h
      rw [← h]
      intro a ha
      injection ha with ha
      rw [← ha]
      exact hclean
    | some a0 =>
      rw [hacc] at hstep
      dsimp only at hstep
      cases hmerge : leftMergeX a0 (processOk opt f df0) with
      | error e =>
        rw [hmerge] at hstep
        cases hstep
      | ok m =>
        rw [hmerge] at hstep
        dsimp only at hstep
        injection hstep with h
        rw [← h]
        intro a ha
        injection ha with ha
        rw [← ha]
        obtain ⟨hmh, hmn⟩ := leftMergeX_ok hmerge
        refine ⟨hmn, ?_⟩
        show ∀ c ∈ m.header, c ≠ "SEQN"
        rw [hmh]
        exact suffixHeaders_ne_seqn _ _ (hinv a0 hacc).2 hclean.2

lemma runLoopXAux_headerOk (opt : String → List Cell → List Cell) :
    ∀ (files : List FileIn) (st st' : RunState),
      (∀ f ∈ files, headerOkAfterLoad f) → AccHeaderOk st →
      runLoopXAux opt st files = .ok st' → AccHeaderOk st' := by
  intro files
  induction files with
  | nil =>
    intro st st' _ hinv hrun
    injection hrun with h
    rw [← h]
    exact hinv
  | cons f t ih =>
    intro st st' hok hinv hrun
    unfold runLoopXAux at hrun
    cases hstep : stepX opt st f with
    | error e =>
      rw [hstep] at hrun
      cases hrun
    | ok st1 =>
      rw [hstep] at hrun
      exact ih st1 st' (fun g hg => hok g (List.mem_cons_of_mem f hg))
        (stepX_headerOk opt st f st1 (hok f (List.mem_cons_self f t)) hinv hstep) hrun

deriving instance DecidableEq for RunState

/-- A component that loads fine but whose `SEQN` column holds a string,
so it is of object dtype and its merge against a numeric key raises. -/
def objKeyRaw : Raw := ⟨["SEQN", "Y"], [[Cell.str "9a", Cell.str "v"]]⟩

def objKeyFile : FileIn := ⟨"labs_clean.csv", "labs_clean", ".csv", .ok objKeyRaw⟩

def bmxRaw : Raw :=
  ⟨["SEQN", "BMXBMI"], [[Cell.num 1, Cell.num 22], [Cell.num 2, Cell.num 24]]⟩

def bmxFile : FileIn := ⟨"bmx_clean.csv", "bmx_clean", ".csv", .ok bmxRaw⟩

/-- C4 counterexample: the claim as stated is false on the code.  A
failure during a single component's merge stage is not caught — the `try`
guards only the load — and aborts the whole run: `objKeyFile` loads
successfully, yet merging it (a string-valued key against a numeric one)
ends the run with an error, while the same run without that one file
completes. -/
theorem claim4_counterexample :
    (read_any objKeyFile).isOk = true ∧
    runLoopX idOpt [demoFile, objKeyFile] =
      .error "You are trying to merge on object and int64 columns" ∧
    (runLoopX idOpt [demoFile]).isOk = true := by decide

/-- C4 (amended): a component whose load fails is logged and skipped —
the loop step leaves the whole state (checkpointed accumulator and
report) unchanged and the run continues, the run over any file list
containing the bad file being equal to the run with it removed; failures
in the stages after the load are outside the `try` and are not
skipped. -/
theorem claim4_skip_bad_load (opt : String → List Cell → List Cell)
    (f : FileIn) (e : String) (hf : read_any f = .error e) (xs ys : List FileIn) :
    (∀ st : RunState, stepX opt st f = .ok st) ∧
    runLoopX opt (xs ++ f :: ys) = runLoopX opt (xs ++ ys) := by
  have hstep : ∀ st : RunState, stepX opt st f = .ok st := by
    intro st
    unfold stepX
    rw [hf]
  refine ⟨hstep, ?_⟩
  unfold runLoopX
  suffices h : ∀ (zs : List FileIn) (st : RunState),
      runLoopXAux opt st (zs ++ f :: ys) = runLoopXAux opt st (zs ++ ys) by
    exact h xs ⟨none, []⟩
  intro zs
  induction zs with
  | nil =>
    intro st
    show runLoopXAux opt st (f :: ys) = runLoopXAux opt st ys
    have hcons : runLoopXAux opt st (f :: ys) =
        match stepX opt st f with
        | .error e2 => .error e2
        | .ok st' => runLoopXAux opt st' ys := rfl
    rw [hcons, hstep st]
  | cons g t ih =>
    intro st
    show runLoopXAux opt st (g :: (t ++ f :: ys)) = runLoopXAux opt st (g :: (t ++ ys))
    unfold runLoopXAux
    cases hg : stepX opt st g with
    | error e2 => rfl
    | ok st1 => exact ih st1

/-- Witness for the amended C4: an unreadable file before one good file. -/
theorem claim4_witness :
    (∀ st : RunState, stepX idOpt st badFile = .ok st) ∧
    runLoopX idOpt ([] ++ badFile :: [demoFile]) = runLoopX idOpt ([] ++ [demoFile]) :=
  claim4_skip_bad_load idOpt badFile "Unsupported file type: .txt" (by decide)
    [] [demoFile]

/-- C7: no two columns of the final merged table share a name.  On the
anchor this is the namespacer's injectivity (every non-key column is
renamed to `<original>__<component>`, stated in the second conjunct, and
the key stays `SEQN`); each merge step renames names occurring on both
sides with the library's `_x`/`_y` suffixes and refuses to produce a
frame with duplicate columns, so every completed run — in particular one
over distinct components with unique names — ends with pairwise-distinct
column names.  When no names overlap (the namespaced regime), the merged
header is exactly the concatenation of the two headers, third
conjunct. -/
theorem claim7_column_uniqueness (opt : String → List Cell → List Cell)
    (files : List FileIn) (st : RunState) (out : DF)
    (hfiles : ∀ f ∈ files, headerOkAfterLoad f)
    (hrun : runLoopX opt files = .ok st) (hacc : st.acc = some out) :
    ("SEQN" :: out.header).Nodup ∧
    (∀ component c : String, renameCol component "SEQN" = "SEQN" ∧
      (c ≠ "SEQN" → renameCol component c = c ++ "__" ++ component)) ∧
    (∀ L R : List String, (∀ c ∈ L, c ∉ R) → suffixHeaders L R = L ++ R) := by
  refine ⟨?_, ?_, ?_⟩
  · have hinv := runLoopXAux_headerOk opt files ⟨none, []⟩ st hfiles
      (fun a ha => by cases ha) hrun
    obtain ⟨hn, hne⟩ := hinv out hacc
    exact List.nodup_cons.mpr ⟨fun h => hne "SEQN" h rfl, hn⟩
  · intro m c
    refine ⟨by unfold renameCol; simp, fun hc => renameCol_eq_append m c hc⟩
  · intro L R hdis
    unfold suffixHeaders
    have h1 : ∀ c ∈ L, (if c ∈ R then c ++ "_x" else c) = c := by
      intro c hc
      rw [if_neg (hdis c hc)]
    have h2 : ∀ c ∈ R, (if c ∈ L then c ++ "_y" else c) = c := by
      intro c hc
      rw [if_neg (fun hm => hdis c hm hc)]
    rw [List.map_congr_left h1, List.map_congr_left h2]
    simp

/-- Witness for C7 at a two-component run: the final columns
`SEQN`, `X__demographics`, `BMXBMI__bmx` are pairwise distinct. -/
theorem claim7_witness :
    ("SEQN" :: (DF.mk ["X__demographics", "BMXBMI__bmx"]
      [(Cell.num 1, [Cell.str "a", Cell.num 22]),
       (Cell.num 2, [Cell.str "b", Cell.num 24])]).header).Nodup ∧
    (∀ component c : String, renameCol component "SEQN" = "SEQN" ∧
      (c ≠ "SEQN" → renameCol component c = c ++ "__" ++ component)) ∧
    (∀ L R : List String, (∀ c ∈ L, c ∉ R) → suffixHeaders L R = L ++ R) :=
  claim7_column_uniqueness idOpt [demoFile, bmxFile]
    ⟨some (DF.mk ["X__demographics", "BMXBMI__bmx"]
      [(Cell.num 1, [Cell.str "a", Cell.num 22]),
       (Cell.num 2, [Cell.str "b", Cell.num 24])]),
     [⟨"demographics", "demographics_clean.csv", 2, 2⟩,
      ⟨"bmx", "bmx_clean.csv", 2, 2⟩]⟩
    (DF.mk ["X__demographics", "BMXBMI__bmx"]
      [(Cell.num 1, [Cell.str "a", Cell.num 22]),
       (Cell.num 2, [Cell.str "b", Cell.num 24])])
    (by decide) (by decide) rfl
